import Mathlib

/-!
Verification development for the video frame-extraction engine of
dream_cloud_studio (src/src-tauri/src/video_decoder.rs).

The Rust module is embedded shallowly:

* floating-point seconds are modelled by the rationals;
* 64-bit signed arithmetic on presentation timestamps is modelled by the
  integers, with the constant i64::MAX kept explicit where the source
  initialises closest_diff with it;
* the ffmpeg decoder is modelled as an oracle: each packet carries the list
  of frames the decoder emits after that packet is sent, and the frames
  drained by the end-of-stream flush are a further list;
* the JPEG encoding step is abstracted away: the scan model returns the
  frame that would be handed to the encoder (none models FRAME_NOT_FOUND).
-/

set_option autoImplicit false

namespace VideoDecoder

/-- A decoded frame: only its presentation timestamp (in stream time-base
units) matters to the selection logic; pts may be absent. -/
structure Frame where
  pts : Option Int
deriving DecidableEq

/-- A demuxed packet: the stream it belongs to, its own pts, and the frames
the decoder emits once this packet is sent to it. -/
structure Packet where
  streamIndex : Nat
  pts : Option Int
  frames : List Frame
deriving DecidableEq

/-- The i64::MAX constant used by the source to initialise closest_diff. -/
def I64MAX : Int := 9223372036854775807

/-- The mutable scan state of get_frame_at_time_with_quality:
closest_frame and closest_diff. -/
structure ScanState where
  closestFrame : Option Frame
  closestDiff : Int
deriving DecidableEq

/-- The quantity diff computed for a decoded frame: the absolute difference
between its pts (0 when missing) and the target timestamp. -/
def frameDiff (targetTs : Int) (f : Frame) : Int :=
  |f.pts.getD 0 - targetTs|

/-- One iteration of the inner receive_frame loop: update the closest-frame
candidate when the new diff is strictly smaller, then return early
(Sum.inr, modelling the encode-and-return) when the frame's pts has reached
the target and a candidate exists. -/
def stepFrame (targetTs : Int) (st : ScanState) (f : Frame) : ScanState ⊕ Frame :=
  let diff := frameDiff targetTs f
  let st1 := if diff < st.closestDiff then ScanState.mk (some f) diff else st
  if f.pts.getD 0 ≥ targetTs ∧ st1.closestFrame.isSome = true then
    Sum.inr (st1.closestFrame.getD f)
  else
    Sum.inl st1

/-- The inner while-receive_frame loop over the frames one packet yields. -/
def scanFrames (targetTs : Int) (frames : List Frame) (st : ScanState) :
    ScanState ⊕ Frame :=
  match frames with
  | [] => Sum.inl st
  | f :: fs =>
    match stepFrame targetTs st f with
    | Sum.inl st1 => scanFrames targetTs fs st1
    | Sum.inr g => Sum.inr g

/-- The packet loop of get_frame_at_time_with_quality: skip packets of other
streams, decode the rest, stop early on Sum.inr, and abandon the scan (break)
when a packet's pts exceeds target_ts + time_base.denominator * 2. -/
def scanPackets (videoIdx : Nat) (targetTs tbDen : Int)
    (packets : List Packet) (st : ScanState) : ScanState ⊕ Frame :=
  match packets with
  | [] => Sum.inl st
  | p :: ps =>
    if p.streamIndex ≠ videoIdx then
      scanPackets videoIdx targetTs tbDen ps st
    else
      match scanFrames targetTs p.frames st with
      | Sum.inr g => Sum.inr g
      | Sum.inl st1 =>
        match p.pts with
        | some pts =>
          if pts > targetTs + tbDen * 2 then Sum.inl st1
          else scanPackets videoIdx targetTs tbDen ps st1
        | none => scanPackets videoIdx targetTs tbDen ps st1

/-- One iteration of the flush loop after send_eof: the source compares
diff against closest_diff and replaces closest_frame, but does not update
closest_diff here (unlike the scan loop). -/
def flushStep (targetTs : Int) (st : ScanState) (f : Frame) : ScanState :=
  if frameDiff targetTs f < st.closestDiff then
    ScanState.mk (some f) st.closestDiff
  else st

/-- The while-receive_frame loop draining the decoder after send_eof. -/
def flushFrames (targetTs : Int) (frames : List Frame) (st : ScanState) :
    ScanState :=
  frames.foldl (flushStep targetTs) st

/-- Frame selection of get_frame_at_time_with_quality: run the packet scan
from the initial state (no candidate, closest_diff = i64::MAX); an early
return yields that frame, otherwise flush and return the final candidate.
Returns none exactly when the source raises FRAME_NOT_FOUND. -/
def get_frame_at_time_with_quality (videoIdx : Nat) (targetTs tbDen : Int)
    (packets : List Packet) (flushed : List Frame) : Option Frame :=
  match scanPackets videoIdx targetTs tbDen packets (ScanState.mk none I64MAX) with
  | Sum.inr g => some g
  | Sum.inl st => (flushFrames targetTs flushed st).closestFrame

/-- The minimum of frameDiff over a list of frames, folded from i64::MAX,
matching how closest_diff evolves in the scan loop. -/
def minDiff (targetTs : Int) (fs : List Frame) : Int :=
  fs.foldl (fun a f => min a (frameDiff targetTs f)) I64MAX

/-- Soundness of a scan state with respect to the frames seen so far:
closest_diff is the running minimum of diff, and the candidate, when
present, is a seen frame achieving it. -/
def SoundState (targetTs : Int) (seen : List Frame) (st : ScanState) : Prop :=
  st.closestDiff = minDiff targetTs seen ∧
    (st.closestFrame = none ∨
      ∃ f, st.closestFrame = some f ∧ f ∈ seen ∧
        frameDiff targetTs f = st.closestDiff)

theorem minDiff_nil (targetTs : Int) : minDiff targetTs [] = I64MAX := rfl

theorem minDiff_snoc (targetTs : Int) (fs : List Frame) (f : Frame) :
    minDiff targetTs (fs ++ [f]) =
      min (minDiff targetTs fs) (frameDiff targetTs f) := by
  simp [minDiff, List.foldl_append]

theorem soundState_init (targetTs : Int) :
    SoundState targetTs [] (ScanState.mk none I64MAX) := by
  simp [SoundState, minDiff]

theorem stepFrame_update_sound (targetTs : Int) (seen : List Frame)
    (st : ScanState) (f : Frame) (h : SoundState targetTs seen st) :
    SoundState targetTs (seen ++ [f])
      (if frameDiff targetTs f < st.closestDiff
        then ScanState.mk (some f) (frameDiff targetTs f) else st) := by
  obtain ⟨h1, h2⟩ := h
  by_cases hlt : frameDiff targetTs f < st.closestDiff
  · rw [if_pos hlt]
    refine ⟨?_, Or.inr ⟨f, rfl, by simp, rfl⟩⟩
    rw [minDiff_snoc, ← h1]
    exact (min_eq_right (le_of_lt hlt)).symm
  · rw [if_neg hlt]
    refine ⟨?_, ?_⟩
    · rw [minDiff_snoc, ← h1]
      exact (min_eq_left (not_lt.mp hlt)).symm
    · rcases h2 with hnone | ⟨g, hg, hgmem, hgdiff⟩
      · exact Or.inl hnone
      · exact Or.inr ⟨g, hg, List.mem_append_left _ hgmem, hgdiff⟩

theorem stepFrame_inl_sound (targetTs : Int) (seen : List Frame)
    (st st1 : ScanState) (f : Frame) (h : SoundState targetTs seen st)
    (hstep : stepFrame targetTs st f = Sum.inl st1) :
    SoundState targetTs (seen ++ [f]) st1 := by
  have hupd := stepFrame_update_sound targetTs seen st f h
  simp only [stepFrame] at hstep
  set st2 := if frameDiff targetTs f < st.closestDiff
    then ScanState.mk (some f) (frameDiff targetTs f) else st with hst2
  split at hstep
  · simp at hstep
  · have heq := Sum.inl.inj hstep
    subst heq
    exact hupd

theorem stepFrame_inr_sound (targetTs : Int) (seen : List Frame)
    (st : ScanState) (f g : Frame) (h : SoundState targetTs seen st)
    (hstep : stepFrame targetTs st f = Sum.inr g) :
    f.pts.getD 0 ≥ targetTs ∧ g ∈ seen ++ [f] ∧
      frameDiff targetTs g = minDiff targetTs (seen ++ [f]) := by
  have hupd := stepFrame_update_sound targetTs seen st f h
  simp only [stepFrame] at hstep
  set st2 := if frameDiff targetTs f < st.closestDiff
    then ScanState.mk (some f) (frameDiff targetTs f) else st with hst2
  split at hstep
  · rename_i hcond
    obtain ⟨hts, hsome⟩ := hcond
    have hg : st2.closestFrame.getD f = g := by
      exact Sum.inr.inj hstep
    obtain ⟨hd, hfr⟩ := hupd
    rcases hfr with hnone | ⟨g0, hg0, hg0mem, hg0diff⟩
    · rw [hnone] at hsome
      simp at hsome
    · rw [hg0] at hg
      simp only [Option.getD_some] at hg
      subst hg
      exact ⟨hts, hg0mem, hg0diff.trans hd⟩
  · simp at hstep

theorem scanFrames_inl_sound (targetTs : Int) (fs : List Frame) :
    ∀ (seen : List Frame) (st st1 : ScanState), SoundState targetTs seen st →
      scanFrames targetTs fs st = Sum.inl st1 →
      SoundState targetTs (seen ++ fs) st1 := by
  induction fs with
  | nil =>
    intro seen st st1 h hscan
    simp only [scanFrames] at hscan
    cases hscan
    simpa using h
  | cons f fs ih =>
    intro seen st st1 h hscan
    simp only [scanFrames] at hscan
    cases hstep : stepFrame targetTs st f with
    | inl st2 =>
      rw [hstep] at hscan
      have h2 := stepFrame_inl_sound targetTs seen st st2 f h hstep
      have h3 := ih (seen ++ [f]) st2 st1 h2 hscan
      simpa [List.append_assoc] using h3
    | inr g =>
      rw [hstep] at hscan
      exact absurd hscan (by simp)

theorem scanFrames_inr_sound (targetTs : Int) (fs : List Frame) :
    ∀ (seen : List Frame) (st : ScanState) (g : Frame),
      SoundState targetTs seen st →
      scanFrames targetTs fs st = Sum.inr g →
      ∃ pre f0 rest, fs = pre ++ f0 :: rest ∧ f0.pts.getD 0 ≥ targetTs ∧
        g ∈ seen ++ pre ++ [f0] ∧
        frameDiff targetTs g = minDiff targetTs (seen ++ pre ++ [f0]) := by
  induction fs with
  | nil =>
    intro seen st g h hscan
    simp [scanFrames] at hscan
  | cons f fs ih =>
    intro seen st g h hscan
    simp only [scanFrames] at hscan
    cases hstep : stepFrame targetTs st f with
    | inl st2 =>
      rw [hstep] at hscan
      have h2 := stepFrame_inl_sound targetTs seen st st2 f h hstep
      obtain ⟨pre, f0, rest, hfs, hts, hmem, hdiff⟩ :=
        ih (seen ++ [f]) st2 g h2 hscan
      refine ⟨f :: pre, f0, rest, by simp [hfs], hts, ?_, ?_⟩
      · simpa [List.append_assoc] using hmem
      · have : seen ++ [f] ++ pre ++ [f0] = seen ++ (f :: pre) ++ [f0] := by
          simp [List.append_assoc]
        rw [this] at hdiff
        exact hdiff
    | inr g0 =>
      rw [hstep] at hscan
      cases hscan
      obtain ⟨hts, hmem, hdiff⟩ := stepFrame_inr_sound targetTs seen st f g h hstep
      exact ⟨[], f, fs, rfl, hts, by simpa using hmem, by simpa using hdiff⟩

theorem scanPackets_skip (videoIdx : Nat) (targetTs tbDen : Int)
    (p : Packet) (ps : List Packet) (st : ScanState)
    (h : p.streamIndex ≠ videoIdx) :
    scanPackets videoIdx targetTs tbDen (p :: ps) st =
      scanPackets videoIdx targetTs tbDen ps st := by
  simp [scanPackets, h]

theorem scanPackets_early_return (videoIdx : Nat) (targetTs tbDen : Int)
    (p : Packet) (ps : List Packet) (st : ScanState) (g : Frame)
    (hidx : p.streamIndex = videoIdx)
    (hscan : scanFrames targetTs p.frames st = Sum.inr g) :
    scanPackets videoIdx targetTs tbDen (p :: ps) st = Sum.inr g := by
  simp [scanPackets, hidx, hscan]

theorem stepFrame_fires (targetTs : Int) (st : ScanState) (f : Frame)
    (hts : f.pts.getD 0 ≥ targetTs) (hsome : st.closestFrame.isSome = true) :
    ∃ g, stepFrame targetTs st f = Sum.inr g := by
  simp only [stepFrame]
  by_cases hlt : frameDiff targetTs f < st.closestDiff
  · simp [hlt, hts]
  · simp [hlt, hts, hsome]

theorem scanPackets_break (videoIdx : Nat) (targetTs tbDen v : Int)
    (p : Packet) (hidx : p.streamIndex = videoIdx) (hpts : p.pts = some v)
    (hv : v > targetTs + tbDen * 2) (ps : List Packet) (st : ScanState) :
    scanPackets videoIdx targetTs tbDen (p :: ps) st =
      scanPackets videoIdx targetTs tbDen [p] st := by
  cases hscan : scanFrames targetTs p.frames st with
  | inr g => simp [scanPackets, hidx, hscan]
  | inl st1 => simp [scanPackets, hidx, hscan, hpts, hv]

theorem scanPackets_cons_cong (videoIdx : Nat) (targetTs tbDen : Int)
    (q : Packet) (l1 l2 : List Packet)
    (h : ∀ st, scanPackets videoIdx targetTs tbDen l1 st =
      scanPackets videoIdx targetTs tbDen l2 st) :
    ∀ st, scanPackets videoIdx targetTs tbDen (q :: l1) st =
      scanPackets videoIdx targetTs tbDen (q :: l2) st := by
  intro st
  by_cases hq : q.streamIndex ≠ videoIdx
  · rw [scanPackets_skip videoIdx targetTs tbDen q l1 st hq,
      scanPackets_skip videoIdx targetTs tbDen q l2 st hq]
    exact h st
  · cases hscan : scanFrames targetTs q.frames st with
    | inr g => simp [scanPackets, hq, hscan]
    | inl st1 =>
      cases hqpts : q.pts with
      | none => simp [scanPackets, hq, hscan, hqpts, h st1]
      | some w =>
        by_cases hw : w > targetTs + tbDen * 2
        · simp [scanPackets, hq, hscan, hqpts, hw]
        · simp [scanPackets, hq, hscan, hqpts, hw, h st1]

theorem scanPackets_stops_after_bound (videoIdx : Nat) (targetTs tbDen v : Int)
    (p : Packet) (hidx : p.streamIndex = videoIdx) (hpts : p.pts = some v)
    (hv : v > targetTs + tbDen * 2) (pre ps : List Packet) :
    ∀ st, scanPackets videoIdx targetTs tbDen (pre ++ p :: ps) st =
      scanPackets videoIdx targetTs tbDen (pre ++ [p]) st := by
  induction pre with
  | nil =>
    intro st
    exact scanPackets_break videoIdx targetTs tbDen v p hidx hpts hv ps st
  | cons q pre ih =>
    intro st
    simpa using scanPackets_cons_cong videoIdx targetTs tbDen q
      (pre ++ p :: ps) (pre ++ [p]) ih st

/-- A rational reported by the container layer (frame rates, time bases):
a numerator and a denominator, either of which may be zero. -/
structure Rational where
  num : Int
  den : Int
deriving DecidableEq

/-- The VideoInfo record built by get_video_info. Seconds and fps are
modelled on the rationals. -/
structure VideoInfo where
  duration_secs : ℚ
  fps : ℚ
  width : Nat
  height : Nat
  frame_count : Nat
  codec : String
  bitrate : Option Nat
deriving DecidableEq

/-- The container and stream facts get_video_info reads after a successful
probe: average and real frame rates, container duration in AV_TIME_BASE
ticks, the stream time base and duration, the reported frame count, the
decoder dimensions, the codec name (none when the decoder reports none) and
the container bit rate. -/
structure ProbeData where
  avgFrameRate : Rational
  rFrameRate : Rational
  containerDuration : Int
  timeBase : Rational
  streamDuration : Int
  streamFrames : Int
  width : Nat
  height : Nat
  codecName : Option String
  bitRate : Int
deriving DecidableEq

/-- The ffmpeg AV_TIME_BASE constant. -/
def AV_TIME_BASE : Int := 1000000

/-- The pure metadata derivation of get_video_info on a successful probe:
fps falls back from average frame rate to real frame rate to 30.0, duration
from container ticks to stream ticks to 0.0, frame count from the reported
count to round(duration times fps), codec to "unknown", and bitrate is kept
only when positive. Saturating float-to-unsigned casts are modelled by
Int.toNat. -/
def get_video_info (d : ProbeData) : VideoInfo :=
  let fps : ℚ :=
    if d.avgFrameRate.den ≠ 0 then
      (d.avgFrameRate.num : ℚ) / (d.avgFrameRate.den : ℚ)
    else if d.rFrameRate.den ≠ 0 then
      (d.rFrameRate.num : ℚ) / (d.rFrameRate.den : ℚ)
    else 30
  let duration_secs : ℚ :=
    if d.containerDuration > 0 then
      (d.containerDuration : ℚ) / (AV_TIME_BASE : ℚ)
    else if d.streamDuration > 0 ∧ d.timeBase.den ≠ 0 then
      (d.streamDuration : ℚ) * (d.timeBase.num : ℚ) / (d.timeBase.den : ℚ)
    else 0
  let frame_count : Nat :=
    if d.streamFrames > 0 then d.streamFrames.toNat
    else (round (duration_secs * fps)).toNat
  VideoInfo.mk duration_secs fps d.width d.height frame_count
    (d.codecName.getD "unknown")
    (if d.bitRate > 0 then some d.bitRate.toNat else none)

/-- Error codes of the batch generator (the other codes of the module are
not reached by the modelled paths). -/
inductive VideoErrorCode where
  | zeroDuration
  | noThumbnails
deriving DecidableEq

/-- The thumbnail count of generate_thumbnails_with_options: the ceiling of
duration over interval cast to usize (Int.toNat models the saturating
float-to-usize cast), replaced by 1 when zero, reduced by the caller-supplied
maximum when present, then capped at 100. -/
def thumbCount (durationSecs intervalSecs : ℚ)
    (maxThumbnails : Option Nat) : Nat :=
  let count0 := (⌈durationSecs / intervalSecs⌉).toNat
  let count1 := if count0 = 0 then 1 else count0
  let count2 :=
    match maxThumbnails with
    | some m => min count1 m
    | none => count1
  min count2 100

/-- The extraction loop of generate_thumbnails_with_options over indices
i, i+1, ... with c indices left: break once the timestamp reaches the
duration, otherwise attempt the extraction (the oracle models
get_frame_at_time_with_quality at the fixed quality), keep successes and
skip failures. -/
def thumbLoop (extract : ℚ → Option String) (intervalSecs durationSecs : ℚ) :
    Nat → Nat → List String
  | 0, _ => []
  | c + 1, i =>
    if (i : ℚ) * intervalSecs ≥ durationSecs then []
    else
      match extract ((i : ℚ) * intervalSecs) with
      | some s => s :: thumbLoop extract intervalSecs durationSecs c (i + 1)
      | none => thumbLoop extract intervalSecs durationSecs c (i + 1)

/-- The timestamps the loop of generate_thumbnails_with_options attempts,
independent of the outcome of each extraction. -/
def attemptedTimestamps (intervalSecs durationSecs : ℚ) :
    Nat → Nat → List ℚ
  | 0, _ => []
  | c + 1, i =>
    if (i : ℚ) * intervalSecs ≥ durationSecs then []
    else (i : ℚ) * intervalSecs ::
      attemptedTimestamps intervalSecs durationSecs c (i + 1)

/-- Thumbnail batch generation after a successful probe: reject a
non-positive duration, then run the capped extraction loop and fail only
when no thumbnail at all was produced. -/
def generate_thumbnails_with_options (durationSecs intervalSecs : ℚ)
    (maxThumbnails : Option Nat) (extract : ℚ → Option String) :
    Except VideoErrorCode (List String) :=
  if durationSecs ≤ 0 then Except.error VideoErrorCode.zeroDuration
  else
    let thumbs := thumbLoop extract intervalSecs durationSecs
      (thumbCount durationSecs intervalSecs maxThumbnails) 0
    if thumbs.isEmpty then Except.error VideoErrorCode.noThumbnails
    else Except.ok thumbs

/-- get_thumbnail_at_percent after a successful probe: clamp percent over
100 into the unit interval, scale by the duration, and delegate to the
extraction with the fixed quality 70. -/
def get_thumbnail_at_percent (extract : ℚ → Nat → Option String)
    (durationSecs percent : ℚ) : Option String :=
  extract (durationSecs * min (max (percent / 100) 0) 1) 70

/-- The immutable snapshot stored in the handle registry. -/
structure VideoHandle where
  path : String
  info : VideoInfo
  stream_index : Nat
  time_base : Rational
deriving DecidableEq

/-- The VIDEO_HANDLES map, keyed by the opaque handle identifier. -/
def Registry := String → Option VideoHandle

/-- The registry update of open_video once the probe succeeded and the lock
is held: store the freshly built handle under the generated identifier and
return that identifier. -/
def open_video (handles : Registry) (freshId : String)
    (handle : VideoHandle) : Registry × String :=
  (fun k => if k = freshId then some handle else handles k, freshId)

/-- close_video once the lock is held: remove the identifier's binding (a
no-op when absent) and report success. -/
def close_video (handles : Registry) (handleId : String) :
    Registry × Except VideoErrorCode Unit :=
  (fun k => if k = handleId then none else handles k, Except.ok ())

theorem thumbLoop_eq_filterMap (extract : ℚ → Option String)
    (intervalSecs durationSecs : ℚ) :
    ∀ c i, thumbLoop extract intervalSecs durationSecs c i =
      (attemptedTimestamps intervalSecs durationSecs c i).filterMap extract := by
  intro c
  induction c with
  | zero => intro i; rfl
  | succ c ih =>
    intro i
    simp only [thumbLoop, attemptedTimestamps]
    by_cases hts : (i : ℚ) * intervalSecs ≥ durationSecs
    · simp [hts]
    · simp only [if_neg hts, List.filterMap_cons]
      cases hx : extract ((i : ℚ) * intervalSecs) with
      | none => simp [ih]
      | some s => simp [ih]

theorem attemptedTimestamps_eq_range (intervalSecs durationSecs : ℚ) :
    ∀ (c i : Nat),
      (∀ j, j < c → ((i + j : Nat) : ℚ) * intervalSecs < durationSecs) →
      attemptedTimestamps intervalSecs durationSecs c i =
        (List.range c).map (fun j => ((i + j : Nat) : ℚ) * intervalSecs) := by
  intro c
  induction c with
  | zero => intro i h; rfl
  | succ c ih =>
    intro i h
    have h0 : (i : ℚ) * intervalSecs < durationSecs := by
      simpa using h 0 (Nat.succ_pos c)
    have hrec := ih (i + 1) (fun j hj => by
      have hh := h (j + 1) (Nat.succ_lt_succ hj)
      have he : i + (j + 1) = (i + 1) + j := by omega
      rwa [he] at hh)
    simp only [attemptedTimestamps, if_neg (not_le.mpr h0)]
    rw [hrec, List.range_succ_eq_map, List.map_cons, List.map_map]
    have hfun : ((fun j => ((i + j : Nat) : ℚ) * intervalSecs) ∘ Nat.succ)
        = fun j => ((i + 1 + j : Nat) : ℚ) * intervalSecs := by
      funext j
      simp only [Function.comp_apply]
      push_cast
      ring
    rw [hfun]
    simp

theorem thumbCount_le_toNat_ceil (durationSecs intervalSecs : ℚ)
    (maxT : Option Nat) (h0 : (⌈durationSecs / intervalSecs⌉).toNat ≠ 0) :
    thumbCount durationSecs intervalSecs maxT ≤
      (⌈durationSecs / intervalSecs⌉).toNat := by
  simp only [thumbCount, if_neg h0]
  cases maxT with
  | none => exact min_le_left _ _
  | some m => exact le_trans (min_le_left _ _) (min_le_left _ _)

theorem thumb_index_lt (durationSecs intervalSecs : ℚ) (maxT : Option Nat)
    (hd : 0 < durationSecs) (hi : 0 < intervalSecs) (k : Nat)
    (hk : k < thumbCount durationSecs intervalSecs maxT) :
    (k : ℚ) * intervalSecs < durationSecs := by
  have hpos : 0 < durationSecs / intervalSecs := div_pos hd hi
  have hceil : 0 < ⌈durationSecs / intervalSecs⌉ := Int.ceil_pos.mpr hpos
  have h0 : (⌈durationSecs / intervalSecs⌉).toNat ≠ 0 := by omega
  have hk2 : k < (⌈durationSecs / intervalSecs⌉).toNat :=
    lt_of_lt_of_le hk (thumbCount_le_toNat_ceil durationSecs intervalSecs maxT h0)
  have hk3 : (k : Int) < ⌈durationSecs / intervalSecs⌉ := by omega
  have hceil_lt : (⌈durationSecs / intervalSecs⌉ : ℚ) <
      durationSecs / intervalSecs + 1 := Int.ceil_lt_add_one _
  have hk4 : (k : ℚ) < durationSecs / intervalSecs := by
    have hkq : ((k : Int) : ℚ) + 1 ≤ (⌈durationSecs / intervalSecs⌉ : ℚ) := by
      exact_mod_cast hk3
    push_cast at hkq
    linarith
  exact (lt_div_iff₀ hi).mp hk4

end VideoDecoder

open VideoDecoder

/-- C1: evaluation of the selection logic at a failing input. With
target_ts = 10, a scan that yields no frames, and a flush that emits a frame
at pts 10 (diff 0) followed by a frame at pts 0 (diff 10), the code hands the
pts-0 frame to the encoder even though the pts-10 frame has strictly smaller
distance to the target: the flush loop never updates closest_diff, so the
second flush frame overwrites the candidate. This contradicts the claim that
flush-emitted frames update the candidate by the same minimal-difference
rule as the scan. -/
theorem spec_C1 :
    get_frame_at_time_with_quality 0 10 1 [] [Frame.mk (some 10), Frame.mk (some 0)]
        = some (Frame.mk (some 0)) ∧
      frameDiff 10 (Frame.mk (some 10)) < frameDiff 10 (Frame.mk (some 0)) := by
  decide

/-- C2: the packet scan of get_frame_at_time_with_quality (i) skips packets
whose stream index differs from the selected video stream, (ii) maintains the
closest-frame candidate as a decoded frame of minimal absolute pts distance
to target_ts (missing pts read as 0) over all frames decoded so far,
(iii) when it returns early, the returned frame is a minimal-distance frame
among the frames decoded up to and including the first frame whose pts
reached target_ts, (iv) a decoded frame whose pts reaches target_ts while a
candidate exists always triggers the early return, and (v) an early return
inside a packet ends the scan with no further packet decoded. -/
theorem spec_C2 (videoIdx : Nat) (targetTs tbDen : Int) :
    (∀ (p : Packet) (ps : List Packet) (st : ScanState),
        p.streamIndex ≠ videoIdx →
        scanPackets videoIdx targetTs tbDen (p :: ps) st =
          scanPackets videoIdx targetTs tbDen ps st)
    ∧ (∀ (fs seen : List Frame) (st st1 : ScanState),
        SoundState targetTs seen st →
        scanFrames targetTs fs st = Sum.inl st1 →
        SoundState targetTs (seen ++ fs) st1)
    ∧ (∀ (fs seen : List Frame) (st : ScanState) (g : Frame),
        SoundState targetTs seen st →
        scanFrames targetTs fs st = Sum.inr g →
        ∃ pre f0 rest, fs = pre ++ f0 :: rest ∧ f0.pts.getD 0 ≥ targetTs ∧
          g ∈ seen ++ pre ++ [f0] ∧
          frameDiff targetTs g = minDiff targetTs (seen ++ pre ++ [f0]))
    ∧ (∀ (st : ScanState) (f : Frame), f.pts.getD 0 ≥ targetTs →
        st.closestFrame.isSome = true →
        ∃ g, stepFrame targetTs st f = Sum.inr g)
    ∧ (∀ (p : Packet) (ps : List Packet) (st : ScanState) (g : Frame),
        p.streamIndex = videoIdx →
        scanFrames targetTs p.frames st = Sum.inr g →
        scanPackets videoIdx targetTs tbDen (p :: ps) st = Sum.inr g) := by
  refine ⟨?_, ?_, ?_, ?_, ?_⟩
  · intro p ps st h
    exact scanPackets_skip videoIdx targetTs tbDen p ps st h
  · intro fs seen st st1 h hscan
    exact scanFrames_inl_sound targetTs fs seen st st1 h hscan
  · intro fs seen st g h hscan
    exact scanFrames_inr_sound targetTs fs seen st g h hscan
  · intro st f hts hsome
    exact stepFrame_fires targetTs st f hts hsome
  · intro p ps st g hidx hscan
    exact scanPackets_early_return videoIdx targetTs tbDen p ps st g hidx hscan

/-- C2 witness: instantiation of the stream-index filter at a concrete
packet of a foreign stream. -/
theorem spec_C2_witness :
    scanPackets 0 5 1 [Packet.mk 1 (some 0) [Frame.mk (some 5)]]
        (ScanState.mk none I64MAX) =
      scanPackets 0 5 1 [] (ScanState.mk none I64MAX) :=
  (spec_C2 0 5 1).1 (Packet.mk 1 (some 0) [Frame.mk (some 5)]) []
    (ScanState.mk none I64MAX) (by decide)

/-- C4: once the scan reaches a video-stream packet whose pts exceeds
target_ts + time_base.denominator * 2, every later packet is irrelevant to
the extraction result: the call on the full packet list equals the call on
the list truncated right after that packet, for every flush suffix. -/
theorem spec_C4 (videoIdx : Nat) (targetTs tbDen v : Int) (p : Packet)
    (pre ps : List Packet) (flushed : List Frame)
    (hidx : p.streamIndex = videoIdx) (hpts : p.pts = some v)
    (hv : v > targetTs + tbDen * 2) :
    get_frame_at_time_with_quality videoIdx targetTs tbDen (pre ++ p :: ps) flushed =
      get_frame_at_time_with_quality videoIdx targetTs tbDen (pre ++ [p]) flushed := by
  unfold get_frame_at_time_with_quality
  rw [scanPackets_stops_after_bound videoIdx targetTs tbDen v p hidx hpts hv pre ps]

/-- C4 witness: with target_ts = 0 and denominator 1, a packet at pts 3
exceeds the safety bound, so a later packet carrying a frame is ignored. -/
theorem spec_C4_witness :
    get_frame_at_time_with_quality 0 0 1
        ([] ++ Packet.mk 0 (some 3) [] :: [Packet.mk 0 (some 4) [Frame.mk (some 4)]]) [] =
      get_frame_at_time_with_quality 0 0 1 ([] ++ [Packet.mk 0 (some 3) []]) [] :=
  spec_C4 0 0 1 3 (Packet.mk 0 (some 3) []) []
    [Packet.mk 0 (some 4) [Frame.mk (some 4)]] [] rfl rfl (by decide)

/-- C3: the fps derivation of get_video_info tries, in order, the
container-reported average frame rate (when its denominator is nonzero),
the stream-reported real frame rate (when its denominator is nonzero), and
finally exactly 30. -/
theorem spec_C3 (d : ProbeData) :
    (d.avgFrameRate.den ≠ 0 →
      (get_video_info d).fps = (d.avgFrameRate.num : ℚ) / (d.avgFrameRate.den : ℚ))
    ∧ (d.avgFrameRate.den = 0 → d.rFrameRate.den ≠ 0 →
      (get_video_info d).fps = (d.rFrameRate.num : ℚ) / (d.rFrameRate.den : ℚ))
    ∧ (d.avgFrameRate.den = 0 → d.rFrameRate.den = 0 →
      (get_video_info d).fps = 30) := by
  refine ⟨?_, ?_, ?_⟩
  · intro h
    simp [get_video_info, h]
  · intro h1 h2
    simp [get_video_info, h1, h2]
  · intro h1 h2
    simp [get_video_info, h1, h2]

/-- C3 witness: a stream whose average frame rate has denominator 0 but
whose real frame rate is 24/1 yields fps 24/1. -/
theorem spec_C3_witness :
    (get_video_info (ProbeData.mk (Rational.mk 0 0) (Rational.mk 24 1) 0
        (Rational.mk 1 1000) 0 0 640 480 none 0)).fps = (24 : ℚ) / (1 : ℚ) :=
  (spec_C3 (ProbeData.mk (Rational.mk 0 0) (Rational.mk 24 1) 0
    (Rational.mk 1 1000) 0 0 640 480 none 0)).2.1 rfl (by decide)

/-- C5: with positive duration and interval, the attempted timestamps of
generate_thumbnails_with_options are exactly k times the interval for
k below the capped count (so the duration break never fires inside the
capped range and the attempted count equals the capped count); the caller
maximum and the hard cap only reduce the count, and a successful result is
never longer than the capped count. -/
theorem spec_C5 (durationSecs intervalSecs : ℚ) (maxT : Option Nat)
    (hd : 0 < durationSecs) (hi : 0 < intervalSecs) :
    attemptedTimestamps intervalSecs durationSecs
        (thumbCount durationSecs intervalSecs maxT) 0 =
      (List.range (thumbCount durationSecs intervalSecs maxT)).map
        (fun k : Nat => (k : ℚ) * intervalSecs)
    ∧ (attemptedTimestamps intervalSecs durationSecs
        (thumbCount durationSecs intervalSecs maxT) 0).length =
      thumbCount durationSecs intervalSecs maxT
    ∧ (∀ m, maxT = some m → thumbCount durationSecs intervalSecs maxT ≤ m)
    ∧ thumbCount durationSecs intervalSecs maxT ≤ 100
    ∧ (∀ extract l,
        generate_thumbnails_with_options durationSecs intervalSecs maxT extract =
          Except.ok l →
        l.length ≤ thumbCount durationSecs intervalSecs maxT) := by
  have hrange := attemptedTimestamps_eq_range intervalSecs durationSecs
    (thumbCount durationSecs intervalSecs maxT) 0
    (fun j hj => by
      simpa using thumb_index_lt durationSecs intervalSecs maxT hd hi j hj)
  have hrange2 : attemptedTimestamps intervalSecs durationSecs
      (thumbCount durationSecs intervalSecs maxT) 0 =
      (List.range (thumbCount durationSecs intervalSecs maxT)).map
        (fun k : Nat => (k : ℚ) * intervalSecs) := by
    rw [hrange]
    apply List.map_congr_left
    intro j _
    norm_num
  refine ⟨hrange2, ?_, ?_, ?_, ?_⟩
  · rw [hrange2]
    rw [List.length_map, List.length_range]
  · intro m hm
    subst hm
    simp only [thumbCount]
    exact le_trans (min_le_left _ _) (min_le_right _ _)
  · simp only [thumbCount]
    exact min_le_right _ _
  · intro extract l hok
    unfold generate_thumbnails_with_options at hok
    rw [if_neg (not_le.mpr hd)] at hok
    by_cases he : (thumbLoop extract intervalSecs durationSecs
        (thumbCount durationSecs intervalSecs maxT) 0).isEmpty
    · simp [he] at hok
    · simp only [he, if_neg, Bool.false_eq_true, not_false_iff] at hok
      have hl : thumbLoop extract intervalSecs durationSecs
          (thumbCount durationSecs intervalSecs maxT) 0 = l := by
        exact Except.ok.inj hok
      rw [← hl, thumbLoop_eq_filterMap]
      calc ((attemptedTimestamps intervalSecs durationSecs
              (thumbCount durationSecs intervalSecs maxT) 0).filterMap extract).length
          ≤ (attemptedTimestamps intervalSecs durationSecs
              (thumbCount durationSecs intervalSecs maxT) 0).length :=
            List.length_filterMap_le _ _
        _ = thumbCount durationSecs intervalSecs maxT := by
              rw [hrange2, List.length_map, List.length_range]

/-- C5 witness: duration 1, interval 1, no caller maximum gives a single
attempted timestamp, 0. -/
theorem spec_C5_witness :
    attemptedTimestamps 1 1 (thumbCount 1 1 none) 0 =
      (List.range (thumbCount 1 1 none)).map (fun k : Nat => (k : ℚ) * 1) :=
  (spec_C5 1 1 none (by norm_num) (by norm_num)).1

/-- C6: generate_thumbnails_with_options reports ZERO_DURATION exactly when
the probed duration is nonpositive, and in that case the result does not
depend on the extraction at all: no frame is attempted. -/
theorem spec_C6 (durationSecs intervalSecs : ℚ) (maxT : Option Nat) :
    (∀ extract,
      generate_thumbnails_with_options durationSecs intervalSecs maxT extract =
          Except.error VideoErrorCode.zeroDuration ↔ durationSecs ≤ 0)
    ∧ (durationSecs ≤ 0 → ∀ e1 e2,
        generate_thumbnails_with_options durationSecs intervalSecs maxT e1 =
          generate_thumbnails_with_options durationSecs intervalSecs maxT e2) := by
  constructor
  · intro extract
    constructor
    · intro h
      by_contra hd
      push_neg at hd
      unfold generate_thumbnails_with_options at h
      rw [if_neg (not_le.mpr hd)] at h
      by_cases he : (thumbLoop extract intervalSecs durationSecs
          (thumbCount durationSecs intervalSecs maxT) 0).isEmpty
      · simp [he] at h
      · simp [he] at h
    · intro h
      unfold generate_thumbnails_with_options
      rw [if_pos h]
  · intro h e1 e2
    unfold generate_thumbnails_with_options
    rw [if_pos h, if_pos h]

/-- C6 witness: a probed duration of -1 yields ZERO_DURATION independently
of the extraction oracle. -/
theorem spec_C6_witness :
    generate_thumbnails_with_options (-1) 1 none (fun _ => none) =
      generate_thumbnails_with_options (-1) 1 none (fun _ => some "x") :=
  (spec_C6 (-1) 1 none).2 (by norm_num) (fun _ => none) (fun _ => some "x")

/-- C7: with a positive probed duration, the batch fails with NO_THUMBNAILS
exactly when every attempted timestamp fails to extract, and a successful
batch returns precisely the in-order successes over the full attempted
timestamp list: a failing timestamp is skipped and all remaining timestamps
are still attempted. -/
theorem spec_C7 (durationSecs intervalSecs : ℚ) (maxT : Option Nat)
    (extract : ℚ → Option String) (hd : 0 < durationSecs) :
    (generate_thumbnails_with_options durationSecs intervalSecs maxT extract =
        Except.error VideoErrorCode.noThumbnails ↔
      ∀ ts ∈ attemptedTimestamps intervalSecs durationSecs
          (thumbCount durationSecs intervalSecs maxT) 0, extract ts = none)
    ∧ (∀ l,
        generate_thumbnails_with_options durationSecs intervalSecs maxT extract =
          Except.ok l →
        l = (attemptedTimestamps intervalSecs durationSecs
          (thumbCount durationSecs intervalSecs maxT) 0).filterMap extract) := by
  have hbridge := thumbLoop_eq_filterMap extract intervalSecs durationSecs
    (thumbCount durationSecs intervalSecs maxT) 0
  constructor
  · constructor
    · intro h
      unfold generate_thumbnails_with_options at h
      rw [if_neg (not_le.mpr hd)] at h
      by_cases he : (thumbLoop extract intervalSecs durationSecs
          (thumbCount durationSecs intervalSecs maxT) 0).isEmpty
      · rw [hbridge, List.isEmpty_iff] at he
        exact List.filterMap_eq_nil_iff.mp he
      · simp [he] at h
    · intro hall
      unfold generate_thumbnails_with_options
      rw [if_neg (not_le.mpr hd)]
      have hnil : thumbLoop extract intervalSecs durationSecs
          (thumbCount durationSecs intervalSecs maxT) 0 = [] := by
        rw [hbridge]
        exact List.filterMap_eq_nil_iff.mpr hall
      simp [hnil]
  · intro l hok
    unfold generate_thumbnails_with_options at hok
    rw [if_neg (not_le.mpr hd)] at hok
    by_cases he : (thumbLoop extract intervalSecs durationSecs
        (thumbCount durationSecs intervalSecs maxT) 0).isEmpty
    · simp [he] at hok
    · simp only [he, Bool.false_eq_true, if_neg, not_false_iff] at hok
      rw [← Except.ok.inj hok, hbridge]

/-- C7 witness: duration 1, interval 1, every extraction failing yields
NO_THUMBNAILS. -/
theorem spec_C7_witness :
    generate_thumbnails_with_options 1 1 none (fun _ => none) =
      Except.error VideoErrorCode.noThumbnails :=
  (spec_C7 1 1 none (fun _ => none) (by norm_num)).1.mpr (fun _ _ => rfl)

/-- C8: get_thumbnail_at_percent delegates to the extraction at timestamp
duration times percent over 100 clamped into the unit interval, with the
fixed quality 70; percent 0 maps to timestamp 0, percent 100 to the
duration, and percent 150 clamps to the duration. -/
theorem spec_C8 (durationSecs : ℚ) (extract : ℚ → Nat → Option String) :
    (∀ percent, get_thumbnail_at_percent extract durationSecs percent =
        extract (durationSecs * min (max (percent / 100) 0) 1) 70)
    ∧ get_thumbnail_at_percent extract durationSecs 0 = extract 0 70
    ∧ get_thumbnail_at_percent extract durationSecs 100 = extract durationSecs 70
    ∧ get_thumbnail_at_percent extract durationSecs 150 = extract durationSecs 70 := by
  refine ⟨fun percent => rfl, ?_, ?_, ?_⟩ <;>
    · unfold get_thumbnail_at_percent
      norm_num

/-- C9: close_video succeeds for every identifier, known or unknown, and
closing the same identifier twice equals closing it once. -/
theorem spec_C9 (handles : Registry) (handleId : String) :
    (close_video handles handleId).2 = Except.ok ()
    ∧ close_video (close_video handles handleId).1 handleId =
        close_video handles handleId := by
  refine ⟨rfl, ?_⟩
  unfold close_video
  refine Prod.ext ?_ rfl
  funext k
  by_cases hk : k = handleId <;> simp [hk]

/-- C10: a successful open stores the freshly built handle under the new
identifier and leaves every other binding unchanged, and close removes
exactly the requested binding, leaving every other binding unchanged. -/
theorem spec_C10 (handles : Registry) (freshId : String)
    (handle : VideoHandle) (_hfresh : handles freshId = none) :
    (open_video handles freshId handle).2 = freshId
    ∧ (open_video handles freshId handle).1 freshId = some handle
    ∧ (∀ k, k ≠ freshId → (open_video handles freshId handle).1 k = handles k)
    ∧ (∀ anyId, (close_video handles anyId).1 anyId = none)
    ∧ (∀ anyId k, k ≠ anyId → (close_video handles anyId).1 k = handles k) := by
  refine ⟨rfl, by simp [open_video], ?_, ?_, ?_⟩
  · intro k hk
    simp [open_video, hk]
  · intro anyId
    simp [close_video]
  · intro anyId k hk
    simp [close_video, hk]

/-- C10 witness: opening into an empty registry binds the new identifier and
leaves another identifier unbound. -/
theorem spec_C10_witness :
    (open_video (fun _ => none) "video_a"
        (VideoHandle.mk "clip.mp4" (VideoInfo.mk 1 30 640 480 30 "h264" none)
          0 (Rational.mk 1 1000))).1 "video_a"
      = some (VideoHandle.mk "clip.mp4" (VideoInfo.mk 1 30 640 480 30 "h264" none)
          0 (Rational.mk 1 1000))
    ∧ (open_video (fun _ => none) "video_a"
        (VideoHandle.mk "clip.mp4" (VideoInfo.mk 1 30 640 480 30 "h264" none)
          0 (Rational.mk 1 1000))).1 "video_b" = none :=
  ⟨(spec_C10 (fun _ => none) "video_a"
      (VideoHandle.mk "clip.mp4" (VideoInfo.mk 1 30 640 480 30 "h264" none)
        0 (Rational.mk 1 1000)) rfl).2.1,
   (spec_C10 (fun _ => none) "video_a"
      (VideoHandle.mk "clip.mp4" (VideoInfo.mk 1 30 640 480 30 "h264" none)
        0 (Rational.mk 1 1000)) rfl).2.2.1 "video_b" (by decide)⟩
